import Mathlib

/-!
Verification of the Cats Gallery front end (src/index.js).

The gallery code is embedded shallowly: each JavaScript function that the
claims mention is translated into a Lean definition over an explicit data
model. Records (cats) are structures whose optional fields model absent
JSON fields; machine strings are Lean String values; the fractional pixel
arithmetic of the swipe handler is modelled over the rationals.
-/

namespace CatsGallery

/- ── String helpers (modelling the JavaScript string primitives used) ──── -/

/-- Model of the JavaScript toLowerCase call (ASCII case folding). -/
def toLowerStr (s : String) : String := String.mk (s.data.map Char.toLower)

/-- Whitespace recognised by the model of the JavaScript trim call. -/
def isWsChar (c : Char) : Bool := c = ' ' || c = '\t' || c = '\n' || c = '\r'

/-- Model of the JavaScript trim call: strip whitespace at both ends. -/
def trimStr (s : String) : String :=
  String.mk (((s.data.dropWhile isWsChar).reverse.dropWhile isWsChar).reverse)

/-- Does the second character list start with the first one? -/
def leadsWith : List Char → List Char → Bool
  | [], _ => true
  | _ :: _, [] => false
  | a :: as, b :: bs => a == b && leadsWith as bs

/-- Does the needle occur contiguously somewhere inside the haystack? -/
def hasSubList (needle : List Char) : List Char → Bool
  | [] => leadsWith needle []
  | c :: rest => leadsWith needle (c :: rest) || hasSubList needle rest

/-- Model of the JavaScript call hay.includes(needle). -/
def strIncludes (hay needle : String) : Bool := hasSubList needle.data hay.data

/-- Does the haystack end with the needle? Used only to state the claim
wording about suffix matching, not by the embedded code. -/
def trailsWith (needle hay : List Char) : Bool := leadsWith needle.reverse hay.reverse

/-- The normalised search term: source line 290,
searchInput.value.toLowerCase().trim(). -/
def searchTermOf (s : String) : String := trimStr (toLowerStr s)

/- ── Data model ───────────────────────────────────────────────────────── -/

/-- One entry of the image_data array of a record: url plus optional type
tag, title, description and categories, absent JSON fields as none. -/
structure MediaItem where
  url : String
  type : Option String := none
  title : Option String := none
  description : Option String := none
  categories : Option (List String) := none
deriving DecidableEq

/-- A cat record as fetched from the store. Optional fields model absent
JSON fields; created_at is the epoch-millisecond value of the timestamp. -/
structure Cat where
  id : String
  title : Option String := none
  description : Option String := none
  categories : Option (List String) := none
  image_data : Option (List MediaItem) := none
  image_urls : Option (List String) := none
  is_featured : Option Bool := none
  created_at : Option Int := none
deriving DecidableEq

/- ── Media helpers: isVideoUrl and getCatMedia (source lines 84-101) ──── -/

/-- Source lines 84-88: isVideoUrl(url). An empty url is falsy and yields
false; otherwise the lowercased url is tested with includes against the
four fixed patterns. -/
def isVideoUrl (url : String) : Bool :=
  if url = "" then false
  else
    let lower := toLowerStr url
    strIncludes lower ".mp4" || strIncludes lower ".webm" ||
      strIncludes lower ".mov" || strIncludes lower "/video/"

/-- Source lines 96-100: the legacy branch of getCatMedia, mapping each
flat url to a MediaItem whose type comes from isVideoUrl. -/
def legacyMedia (cat : Cat) : List MediaItem :=
  match cat.image_urls with
  | some us =>
      if us.length > 0 then
        us.map (fun u =>
          { url := u, type := some (if isVideoUrl u then "video" else "image") })
      else []
  | none => []

/-- Source lines 91-101: getCatMedia(cat). A non-empty image_data array is
returned unchanged; otherwise the legacy image_urls list is normalised;
otherwise the result is empty. -/
def getCatMedia (cat : Cat) : List MediaItem :=
  match cat.image_data with
  | some l => if l.length > 0 then l else legacyMedia cat
  | none => legacyMedia cat

/-- Source line 334 and 457: the placeholder media item substituted when a
record resolves to no media at all. -/
def placeholderMedia : MediaItem :=
  { url := "https://via.placeholder.com/400x400?text=cat", type := some "image" }

/- ── Filter engine (source lines 289-329) ─────────────────────────────── -/

/-- Source lines 295-308: the category predicate of filterCats. A record
passes when its own categories contain every selected category, or when
some image_data entry has categories containing every selected one. -/
def catPassesCategories (sel : List String) (cat : Cat) : Bool :=
  let catHas :=
    match cat.categories with
    | some cs => sel.all (fun c => cs.contains c)
    | none => false
  let imageHas :=
    match cat.image_data with
    | some imgs =>
        imgs.any (fun img =>
          match img.categories with
          | some ics => sel.all (fun c => ics.contains c)
          | none => false)
    | none => false
  catHas || imageHas

/-- Source lines 312-326: the search-term predicate of filterCats, matching
the term against title, description and image_data titles/descriptions. -/
def catPassesSearch (searchTerm : String) (cat : Cat) : Bool :=
  let title := toLowerStr (cat.title.getD "")
  let descr := toLowerStr (cat.description.getD "")
  let imageMatch :=
    match cat.image_data with
    | some imgs =>
        imgs.any (fun img =>
          strIncludes (toLowerStr (img.title.getD "")) searchTerm ||
            strIncludes (toLowerStr (img.description.getD "")) searchTerm)
    | none => false
  strIncludes title searchTerm || strIncludes descr searchTerm || imageMatch

/-- Source lines 289-329: filterCats as a pure function of the state it
reads: the record list, the selected category set (as a list) and the raw
search input. The category stage runs only when categories are selected,
the search stage only when the normalised term is non-empty. -/
def filterCats (allCats : List Cat) (selectedCategories : List String)
    (searchInput : String) : List Cat :=
  let searchTerm := searchTermOf searchInput
  let byCategory :=
    if selectedCategories.length > 0 then
      allCats.filter (catPassesCategories selectedCategories)
    else allCats
  if searchTerm ≠ "" then byCategory.filter (catPassesSearch searchTerm)
  else byCategory

/- ── Category index builder (source lines 119-157) ────────────────────── -/

/-- The category occurrences one record contributes, in scan order:
record-level tags first, then every image-level tag (source lines
124-140). Absent arrays contribute nothing. -/
def catOccurrences (c : Cat) : List String :=
  c.categories.getD [] ++
    ((c.image_data.getD []).map (fun i => i.categories.getD [])).flatten

/-- All category occurrences across the record list, in scan order. -/
def allOccurrences (cats : List Cat) : List String :=
  (cats.map catOccurrences).flatten

/-- One step of the counting dictionary: increment the entry of the given
name, or append a fresh entry with count one (source lines 127, 135). -/
def bump : List (String × Nat) → String → List (String × Nat)
  | [], c => [(c, 1)]
  | (n, k) :: rest, c =>
      if n = c then (n, k + 1) :: rest else (n, k) :: bump rest c

/-- The insertion-ordered counting dictionary built by scanning every
occurrence (the categoryCounts object of loadCategories). -/
def countsOf (l : List String) : List (String × Nat) := l.foldl bump []

/-- A derived category entry: name and occurrence count (source line 143). -/
structure CategoryEntry where
  name : String
  count : Nat
deriving DecidableEq

/-- Source lines 119-144: the entry list loadCategories derives from the
record list: the counting dictionary mapped to entries and stably sorted
descending by count. -/
def loadCategories (cats : List Cat) : List CategoryEntry :=
  ((countsOf (allOccurrences cats)).map
      (fun p => CategoryEntry.mk p.1 p.2)).mergeSort
    (fun a b => decide (b.count ≤ a.count))

/- ── Renderer counts (source lines 412-449) ───────────────────────────── -/

/-- Source lines 425-436: the per-item total, accumulated exactly as the
code does - media lists are only walked when non-empty. -/
def totalImages (cats : List Cat) : Nat :=
  cats.foldl
    (fun acc cat =>
      let media := getCatMedia cat
      if media.length > 0 then acc + media.length else acc) 0

/-- The renderer output the claims are about: the count label text. -/
structure RenderOutput where
  countLabel : String
deriving DecidableEq

/-- Source lines 412-449: renderCats reduced to its count label. Batch
mode labels the record count, individual mode the flattened media count,
each with the conditional plural s of the template literal. -/
def renderCats (viewMode : String) (cats : List Cat) : RenderOutput :=
  if viewMode = "batch" then
    { countLabel :=
        toString cats.length ++ " cat" ++ (if cats.length != 1 then "s" else "") }
  else
    { countLabel :=
        toString (totalImages cats) ++ " photo" ++
          (if totalImages cats != 1 then "s" else "") }

/- ── Modal controller (source lines 452-567) ──────────────────────────── -/

/-- The modal state machine of the spec: closed, or open at a record id
and media index. -/
inductive ModalState where
  | Closed : ModalState
  | Open : String → Nat → ModalState
deriving DecidableEq

/-- JavaScript truthiness for optional strings: the empty string is falsy. -/
def strTruthy : Option String → Option String
  | some s => if s = "" then none else some s
  | none => none

/-- Model of the JavaScript chain a || b || two-quote empty string over
optional strings. -/
def jsStrOr (a b : Option String) : String :=
  ((strTruthy a).orElse (fun _ => strTruthy b)).getD ""

/-- The modal content produced on open: resolved main media, its url,
whether it renders as video, and the displayed title and description. -/
structure ModalRender where
  mainMedia : MediaItem
  mainUrl : String
  showsVideo : Bool
  displayTitle : String
  displayDesc : String
deriving DecidableEq

/-- Source lines 452-522: openCatModal. An unknown id returns before any
effect (line 454). Otherwise the media is resolved, the displayed item is
media[startIndex] with fallback to media[0] and then the placeholder
(line 457), the modal becomes active and a history checkpoint is pushed
(lines 511-515). Result: new modal state, rendered content if any, and
whether the checkpoint was pushed. -/
def openCatModal (allCats : List Cat) (st : ModalState) (catId : String)
    (startIndex : Nat) : ModalState × Option ModalRender × Bool :=
  match allCats.find? (fun c => c.id == catId) with
  | none => (st, none, false)
  | some cat =>
      let media := getCatMedia cat
      let currentMedia := ((media[startIndex]?).orElse
        (fun _ => media[0]?)).getD placeholderMedia
      let mainUrl := currentMedia.url
      let isVid := currentMedia.type == some "video" || isVideoUrl mainUrl
      (ModalState.Open catId startIndex,
        some { mainMedia := currentMedia, mainUrl := mainUrl,
               showsVideo := isVid,
               displayTitle := jsStrOr currentMedia.title cat.title,
               displayDesc := jsStrOr currentMedia.description cat.description },
        true)

/-- Source lines 525-567: changeModalMedia reduced to its data effect: the
updated title and description shown for the chosen media index of the
given record, or nothing when the id is unknown. -/
def changeModalMedia (allCats : List Cat) (catId : String) (imgIndex : Nat) :
    Option (String × String) :=
  match allCats.find? (fun c => c.id == catId) with
  | none => none
  | some cat =>
      let media := getCatMedia cat
      let imgTitle := (media[imgIndex]?).bind (fun m => m.title)
      let imgDesc := (media[imgIndex]?).bind (fun m => m.description)
      some (jsStrOr imgTitle cat.title, jsStrOr imgDesc cat.description)

/- ── Swipe-to-close arithmetic (source lines 59-69) ───────────────────── -/

/-- Model of Math.abs over the rationals. -/
def ratAbs (q : ℚ) : ℚ := if q < 0 then -q else q

/-- Source lines 62-68: does the touchend handler close the modal? The
guard is abs dx strictly greater than abs dy times 1.5, and dx strictly
greater than the threshold of twenty percent of the viewport width. -/
def swipeCloses (innerWidth dx dy : ℚ) : Bool :=
  let threshold := innerWidth * 0.20
  decide (ratAbs dy * 1.5 < ratAbs dx) && decide (threshold < dx)

/- ── Gallery state and the operations of claim C9 ─────────────────────── -/

/-- The process-wide mutable state of the script (source lines 12-16 plus
the search input value and the modal state). -/
structure GalleryState where
  allCats : List Cat
  selectedCategories : List String
  searchInput : String
  viewMode : String
  modal : ModalState

/-- filterCats as a state transformer: it reads the state and renders, but
assigns no state field. -/
def filterCatsOp (st : GalleryState) : GalleryState × List Cat :=
  (st, filterCats st.allCats st.selectedCategories st.searchInput)

/-- renderCats as a state transformer over the filtered list. -/
def renderCatsOp (st : GalleryState) (cats : List Cat) :
    GalleryState × RenderOutput :=
  (st, renderCats st.viewMode cats)

/-- Source lines 221-240: renderRecentCats. The spread on line 225 copies
the list before filter and the in-place sort, so the state keeps the
original allCats; the output is the newest-first week-window capped at
eight records. -/
def renderRecentCats (now : Int) (st : GalleryState) : GalleryState × List Cat :=
  let oneWeekAgo := now - 7 * 86400000
  let copied := st.allCats
  let recentWithinWeek :=
    ((copied.filter (fun c =>
        match c.created_at with
        | some t => decide (oneWeekAgo ≤ t)
        | none => false)).mergeSort
      (fun a b => decide (b.created_at.getD 0 ≤ a.created_at.getD 0))).take 8
  (st, recentWithinWeek)

/-- Source lines 243-255: renderPopularCats filters the featured records. -/
def renderPopularCats (st : GalleryState) : GalleryState × List Cat :=
  (st, st.allCats.filter (fun c => c.is_featured == some true))

/-- openCatModal as a state transformer: only the modal field is written. -/
def openCatModalOp (st : GalleryState) (catId : String) (idx : Nat) :
    GalleryState × Option ModalRender × Bool :=
  let r := openCatModal st.allCats st.modal catId idx
  ({ st with modal := r.1 }, r.2.1, r.2.2)

/-- changeModalMedia as a state transformer: no state field is written. -/
def changeModalMediaOp (st : GalleryState) (catId : String) (idx : Nat) :
    GalleryState × Option (String × String) :=
  (st, changeModalMedia st.allCats catId idx)

/- ── Definitions following the claim wording (for refutations only) ───── -/

/-- Follows the claim wording of C3, not the source: video exactly when
the lowercased url ends with .mp4, .webm or .mov, or contains /video/. -/
def claimVideoBySuffix (url : String) : Bool :=
  let lower := toLowerStr url
  trailsWith ".mp4".data lower.data || trailsWith ".webm".data lower.data ||
    trailsWith ".mov".data lower.data || strIncludes lower "/video/"

/-- Follows the claim wording of C4, not the source: close exactly when dx
exceeds twenty percent of the viewport width and the horizontal component
dominates the vertical by a factor of at least 1.5. -/
def claimSwipePred (innerWidth dx dy : ℚ) : Prop :=
  innerWidth * 0.20 < dx ∧ ratAbs dy * 1.5 ≤ ratAbs dx

/- ── Concrete records used by witnesses ───────────────────────────────── -/

/-- A concrete record with one record-level category. -/
def catFluffy : Cat :=
  { id := "a1", title := some "Mia", categories := some ["fluffy"] }

/-- A concrete record with no media fields at all. -/
def catBare : Cat := { id := "b1" }

/-- A concrete record with a single legacy image url. -/
def catOneImage : Cat :=
  { id := "c1", image_urls := some ["https://x/a.jpg"] }

/-- Three concrete records whose media counts are one, three and two. -/
def exampleCats : List Cat :=
  [ { id := "e1", image_urls := some ["https://a/1.jpg"] },
    { id := "e2",
      image_urls := some ["https://a/2.jpg", "https://a/3.jpg", "https://a/4.jpg"] },
    { id := "e3", image_urls := some ["https://a/5.jpg", "https://a/6.jpg"] } ]

/-- Propositional lookup in the counting dictionary, used by proofs about
countsOf. -/
def lookupCount : List (String × Nat) → String → Option Nat
  | [], _ => none
  | (a, k) :: rest, n => if n = a then some k else lookupCount rest n

end CatsGallery

namespace CatsGallery

/- ── Substring machinery lemmas ───────────────────────────────────────── -/

/-- leadsWith decides list prefixing. -/
lemma leadsWith_iff (n : List Char) : ∀ h : List Char, leadsWith n h = true ↔ n <+: h := by
  induction n with
  | nil =>
    intro h
    simp only [show leadsWith [] h = true from rfl, true_iff]
    exact List.nil_prefix
  | cons a as ih =>
    intro h
    cases h with
    | nil => simp [leadsWith]
    | cons b bs => simp [leadsWith, List.cons_prefix_cons, ih]

/-- hasSubList decides contiguous containment. -/
lemma hasSubList_iff (n : List Char) : ∀ h : List Char, hasSubList n h = true ↔ n <:+: h := by
  intro h
  induction h with
  | nil => simp [hasSubList, leadsWith_iff, List.infix_nil, List.prefix_nil]
  | cons c rest ih => simp [hasSubList, leadsWith_iff, List.infix_cons_iff, ih]

/-- strIncludes decides substring containment on the character data. -/
lemma strIncludes_iff (hay needle : String) :
    strIncludes hay needle = true ↔ needle.data <:+: hay.data :=
  hasSubList_iff _ _

/-- The empty-url guard of isVideoUrl is redundant: the function always
agrees with the four includes tests. -/
lemma isVideoUrl_eq (url : String) :
    isVideoUrl url =
      (strIncludes (toLowerStr url) ".mp4" || strIncludes (toLowerStr url) ".webm" ||
        strIncludes (toLowerStr url) ".mov" || strIncludes (toLowerStr url) "/video/") := by
  by_cases hu : url = ""
  · subst hu; decide
  · simp [isVideoUrl, hu]

/- ── Claim C3 (corrected) ─────────────────────────────────────────────── -/

/-- Claim C3 counterexample: the claim states that the video inference
returns video exactly when the lowercased URL ends with one of the three
extensions or contains a /video/ segment. The concrete URL
https://x/a.mp4.jpg refutes the biconditional: the code infers video
because it tests substring containment of .mp4, while the suffix-based
claim predicate classifies the URL as image. -/
theorem isVideoUrl_claim_counterexample :
    ¬ (isVideoUrl "https://x/a.mp4.jpg" = true ↔
        claimVideoBySuffix "https://x/a.mp4.jpg" = true) := by decide

/-- Claim C3 amended: isVideoUrl returns video exactly when the lowercased
URL contains .mp4, .webm or .mov anywhere as a substring, or contains
/video/; in particular https://x/VIDEO/a.MP4 is inferred as video. -/
theorem isVideoUrl_substring_spec :
    (∀ url : String, isVideoUrl url = true ↔
      (".mp4".data <:+: (toLowerStr url).data ∨ ".webm".data <:+: (toLowerStr url).data ∨
        ".mov".data <:+: (toLowerStr url).data ∨ "/video/".data <:+: (toLowerStr url).data))
    ∧ isVideoUrl "https://x/VIDEO/a.MP4" = true := by
  refine ⟨fun url => ?_, by decide⟩
  rw [isVideoUrl_eq]
  simp only [Bool.or_eq_true, strIncludes_iff]
  tauto

/- ── Claim C4 (corrected) ─────────────────────────────────────────────── -/

/-- The swipe guard unfolded to its two rational comparisons. -/
lemma swipeCloses_eq_true_iff (w dx dy : ℚ) :
    swipeCloses w dx dy = true ↔ (ratAbs dy * 1.5 < ratAbs dx ∧ w * 0.20 < dx) := by
  simp [swipeCloses]

/-- Claim C4 counterexample: the claim states the modal closes exactly when
the horizontal displacement exceeds twenty percent of the viewport width
and the horizontal component dominates the vertical by a factor of at
least 1.5. On a viewport of width 1000 with dx 300 and dy 200 the claim
predicate holds (300 exceeds 200 and the ratio is exactly 1.5), yet the
code does not close: its domination test is strict. -/
theorem swipeCloses_claim_counterexample :
    claimSwipePred 1000 300 200 ∧ swipeCloses 1000 300 200 = false := by
  constructor
  · constructor
    · norm_num
    · norm_num [ratAbs]
  · have h : ¬ (ratAbs (200 : ℚ) * 1.5 < ratAbs (300 : ℚ)) := by norm_num [ratAbs]
    simp [swipeCloses, h]

/-- Claim C4 amended: a swipe closes the modal exactly when the absolute
horizontal displacement STRICTLY exceeds 1.5 times the absolute vertical
displacement and dx exceeds one fifth of the viewport width; on a
non-negative viewport width a rightward swipe of threshold plus one pixel
with dy zero closes it and threshold minus one pixel does not. -/
theorem swipeCloses_strict_spec :
    (∀ w dx dy : ℚ, swipeCloses w dx dy = true ↔
      (ratAbs dy * 1.5 < ratAbs dx ∧ w / 5 < dx))
    ∧ (∀ w : ℚ, 0 ≤ w →
        swipeCloses w (w * 0.20 + 1) 0 = true ∧ swipeCloses w (w * 0.20 - 1) 0 = false) := by
  constructor
  · intro w dx dy
    rw [swipeCloses_eq_true_iff]
    have h5 : w * 0.20 = w / 5 := by ring
    rw [h5]
  · intro w hw
    constructor
    · rw [swipeCloses_eq_true_iff]
      have h1 : ratAbs 0 = 0 := by simp [ratAbs]
      have h2 : ratAbs (w * 0.20 + 1) = w * 0.20 + 1 := by
        rw [ratAbs, if_neg]
        push_neg
        nlinarith
      rw [h1, h2]
      constructor <;> nlinarith
    · have h : ¬ (w * 0.20 < w * 0.20 - 1) := by linarith
      simp [swipeCloses, h]

/-- Witness for the amended claim C4 theorem at viewport width 1000. -/
theorem swipeCloses_strict_spec_witness :
    swipeCloses 1000 (1000 * 0.20 + 1) 0 = true
    ∧ swipeCloses 1000 (1000 * 0.20 - 1) 0 = false :=
  swipeCloses_strict_spec.2 1000 (by norm_num)

/- ── Claim C2 ─────────────────────────────────────────────────────────── -/

/-- Claim C2: with no selected categories and an empty or whitespace-only
search input (normalised term empty), filterCats returns the record list
unchanged. -/
theorem filterCats_no_filters_identity (cats : List Cat) (s : String)
    (hs : searchTermOf s = "") :
    filterCats cats [] s = cats := by
  simp [filterCats, hs]

/-- Witness for claim C2 on a whitespace-only search input. -/
theorem filterCats_no_filters_identity_witness :
    filterCats [catFluffy] [] "   " = [catFluffy] :=
  filterCats_no_filters_identity [catFluffy] "   " (by decide)

/- ── Claim C1 ─────────────────────────────────────────────────────────── -/

/-- Claim C1: with a non-empty selected-category list, every record in the
filterCats output either has record-level categories containing every
selected category, or has some image_data entry whose categories contain
every selected category. -/
theorem filterCats_category_superset (cats : List Cat) (sel : List String)
    (s : String) (r : Cat) (hsel : sel ≠ []) (hr : r ∈ filterCats cats sel s) :
    (∃ cs, r.categories = some cs ∧ ∀ c ∈ sel, c ∈ cs)
    ∨ (∃ imgs, r.image_data = some imgs ∧
        ∃ img ∈ imgs, ∃ ics, img.categories = some ics ∧ ∀ c ∈ sel, c ∈ ics) := by
  have hlen : 0 < sel.length := List.length_pos.mpr hsel
  simp only [filterCats, if_pos hlen] at hr
  have hb : r ∈ cats.filter (catPassesCategories sel) := by
    by_cases hq : searchTermOf s ≠ ""
    · rw [if_pos hq] at hr
      exact (List.mem_filter.mp hr).1
    · rwa [if_neg hq] at hr
  have hpass : catPassesCategories sel r = true := (List.mem_filter.mp hb).2
  simp only [catPassesCategories, Bool.or_eq_true] at hpass
  rcases hpass with hcat | himg
  · left
    cases hcc : r.categories with
    | none => rw [hcc] at hcat; simp at hcat
    | some cs =>
      rw [hcc] at hcat
      simp only [List.all_eq_true] at hcat
      exact ⟨cs, rfl, fun c hc => by simpa using hcat c hc⟩
  · right
    cases hdd : r.image_data with
    | none => rw [hdd] at himg; simp at himg
    | some imgs =>
      rw [hdd] at himg
      simp only [List.any_eq_true] at himg
      obtain ⟨img, hmem, hok⟩ := himg
      cases hic : img.categories with
      | none => rw [hic] at hok; simp at hok
      | some ics =>
        rw [hic] at hok
        simp only [List.all_eq_true] at hok
        exact ⟨imgs, rfl, img, hmem, ics, hic, fun c hc => by simpa using hok c hc⟩

/-- Witness for claim C1 on a concrete record carrying the selected tag. -/
theorem filterCats_category_superset_witness :
    (∃ cs, catFluffy.categories = some cs ∧ ∀ c ∈ ["fluffy"], c ∈ cs)
    ∨ (∃ imgs, catFluffy.image_data = some imgs ∧
        ∃ img ∈ imgs, ∃ ics, img.categories = some ics ∧ ∀ c ∈ ["fluffy"], c ∈ ics) :=
  filterCats_category_superset [catFluffy] ["fluffy"] "" catFluffy
    (by decide) (by decide)

end CatsGallery

namespace CatsGallery

/- ── Claim C5 ─────────────────────────────────────────────────────────── -/

/-- Claim C5: the media resolver is total and deterministic: a non-empty
image_data list is returned unchanged; otherwise a non-empty image_urls
list is mapped to url/type pairs via the video heuristic; otherwise the
result is the empty sequence. -/
theorem getCatMedia_total_spec (cat : Cat) :
    (∀ l, cat.image_data = some l → l ≠ [] → getCatMedia cat = l)
    ∧ ((cat.image_data = none ∨ cat.image_data = some []) →
        ∀ us, cat.image_urls = some us → us ≠ [] →
          getCatMedia cat = us.map (fun u =>
            { url := u, type := some (if isVideoUrl u then "video" else "image"),
              title := none, description := none, categories := none }))
    ∧ ((cat.image_data = none ∨ cat.image_data = some []) →
        (cat.image_urls = none ∨ cat.image_urls = some []) →
          getCatMedia cat = []) := by
  refine ⟨?_, ?_, ?_⟩
  · intro l hd hne
    have hl : 0 < l.length := List.length_pos.mpr hne
    simp [getCatMedia, hd, hl]
  · rintro (hd | hd) us hu hne <;>
      · have hl : 0 < us.length := List.length_pos.mpr hne
        simp [getCatMedia, legacyMedia, hd, hu, hl]
  · rintro (hd | hd) (hu | hu) <;> simp [getCatMedia, legacyMedia, hd, hu]

/-- Witness for claim C5: a record with no media fields resolves to the
empty sequence. -/
theorem getCatMedia_total_spec_witness :
    getCatMedia catBare = [] :=
  (getCatMedia_total_spec catBare).2.2 (Or.inl rfl) (Or.inl rfl)

/- ── Claim C7 ─────────────────────────────────────────────────────────── -/

/-- The accumulated per-item total equals the sum of resolved media-list
lengths. -/
lemma totalImages_eq_sum (cats : List Cat) :
    totalImages cats = (cats.map (fun c => (getCatMedia c).length)).sum := by
  suffices h : ∀ (l : List Cat) (n : Nat),
      (l.foldl (fun acc cat =>
        let media := getCatMedia cat
        if media.length > 0 then acc + media.length else acc) n)
        = n + (l.map (fun c => (getCatMedia c).length)).sum by
    simpa [totalImages] using h cats 0
  intro l
  induction l with
  | nil => intro n; simp
  | cons c cs ih =>
    intro n
    simp only [List.foldl_cons, List.map_cons, List.sum_cons]
    rw [ih]
    by_cases h : 0 < (getCatMedia c).length
    · simp only [if_pos h]
      omega
    · have h0 : (getCatMedia c).length = 0 := by omega
      simp [h0]

/-- Claim C7: in batch mode the count label shows the number of records
with singular cat exactly at one, in individual mode the total number of
resolved media items with singular photo exactly at one; three records
with media counts one, three and two yield the labels 3 cats and
6 photos. -/
theorem renderCats_count_spec :
    (∀ cats : List Cat,
      (renderCats "batch" cats).countLabel =
          toString cats.length ++ (if cats.length = 1 then " cat" else " cats")
        ∧ (renderCats "individual" cats).countLabel =
          toString (totalImages cats) ++
            (if totalImages cats = 1 then " photo" else " photos")
        ∧ totalImages cats = (cats.map (fun c => (getCatMedia c).length)).sum)
    ∧ (renderCats "batch" exampleCats).countLabel = "3 cats"
    ∧ (renderCats "individual" exampleCats).countLabel = "6 photos" := by
  refine ⟨fun cats => ⟨?_, ?_, totalImages_eq_sum cats⟩, by decide, by decide⟩
  · by_cases h : cats.length = 1 <;>
      simp [renderCats, h, String.append_assoc]
  · by_cases h : totalImages cats = 1 <;>
      simp [renderCats, h, String.append_assoc]

/- ── Claim C8 ─────────────────────────────────────────────────────────── -/

/-- Claim C8: activating the modal with an id absent from the record set
is a no-op: the state stays Closed, no content is rendered, no history
checkpoint is pushed. -/
theorem openCatModal_unknown_id_noop (cats : List Cat) (catId : String) (idx : Nat)
    (h : ∀ c ∈ cats, c.id ≠ catId) :
    openCatModal cats ModalState.Closed catId idx = (ModalState.Closed, none, false) := by
  have hf : cats.find? (fun c => c.id == catId) = none :=
    List.find?_eq_none.mpr (fun x hx => by simpa using h x hx)
  simp [openCatModal, hf]

/-- Witness for claim C8 on a nonexistent id. -/
theorem openCatModal_unknown_id_noop_witness :
    openCatModal [catFluffy] ModalState.Closed "nonexistent" 0 =
      (ModalState.Closed, none, false) :=
  openCatModal_unknown_id_noop [catFluffy] "nonexistent" 0 (by decide)

/- ── Claim C10 ────────────────────────────────────────────────────────── -/

/-- Claim C10: opening the modal for a present record with a media index
at or past the end of its resolved media list still opens the modal,
pushes the checkpoint, and renders the first media item, or the
placeholder when the list is empty. -/
theorem openCatModal_index_overflow_opens (cats : List Cat) (cat : Cat)
    (catId : String) (idx : Nat)
    (hfind : cats.find? (fun c => c.id == catId) = some cat)
    (hidx : (getCatMedia cat).length ≤ idx) :
    (openCatModal cats ModalState.Closed catId idx).1 = ModalState.Open catId idx
    ∧ (∃ render, (openCatModal cats ModalState.Closed catId idx).2.1 = some render
        ∧ render.mainMedia = ((getCatMedia cat).head?).getD placeholderMedia)
    ∧ (openCatModal cats ModalState.Closed catId idx).2.2 = true := by
  have hnone : (getCatMedia cat)[idx]? = none := List.getElem?_eq_none hidx
  refine ⟨by simp [openCatModal, hfind], ?_, by simp [openCatModal, hfind]⟩
  simp only [openCatModal, hfind]
  refine ⟨_, rfl, ?_⟩
  rw [hnone]
  simp [Option.orElse, ← List.head?_eq_getElem?]

/-- Witness for claim C10: a one-image record opened at index five. -/
theorem openCatModal_index_overflow_opens_witness :
    (openCatModal [catOneImage] ModalState.Closed "c1" 5).1 = ModalState.Open "c1" 5
    ∧ (∃ render, (openCatModal [catOneImage] ModalState.Closed "c1" 5).2.1 = some render
        ∧ render.mainMedia = ((getCatMedia catOneImage).head?).getD placeholderMedia)
    ∧ (openCatModal [catOneImage] ModalState.Closed "c1" 5).2.2 = true :=
  openCatModal_index_overflow_opens [catOneImage] catOneImage "c1" 5
    (by decide) (by decide)

/- ── Claim C9 ─────────────────────────────────────────────────────────── -/

/-- Claim C9: none of the filter, render or modal operations changes the
canonical record list: the allCats component of the state is preserved,
with its records, length and order. -/
theorem gallery_ops_preserve_allCats (st : GalleryState) (cats2 : List Cat)
    (catId : String) (idx : Nat) (now : Int) :
    (filterCatsOp st).1.allCats = st.allCats
    ∧ (renderCatsOp st cats2).1.allCats = st.allCats
    ∧ (renderRecentCats now st).1.allCats = st.allCats
    ∧ (renderPopularCats st).1.allCats = st.allCats
    ∧ (openCatModalOp st catId idx).1.allCats = st.allCats
    ∧ (changeModalMediaOp st catId idx).1.allCats = st.allCats :=
  ⟨rfl, rfl, rfl, rfl, rfl, rfl⟩

end CatsGallery

namespace CatsGallery

/- ── Claim C6 helper lemmas ───────────────────────────────────────────── -/

/-- Bumping a name updates exactly its looked-up count. -/
lemma lookupCount_bump (m : List (String × Nat)) (c n : String) :
    lookupCount (bump m c) n =
      if n = c then some ((lookupCount m n).getD 0 + 1) else lookupCount m n := by
  induction m with
  | nil =>
    by_cases h : n = c <;> simp [bump, lookupCount, h]
  | cons p rest ih =>
    obtain ⟨a, k⟩ := p
    by_cases hac : a = c
    · subst hac
      by_cases hna : n = a <;> simp [bump, lookupCount, hna]
    · simp only [bump, if_neg hac]
      by_cases hna : n = a
      · subst hna
        simp [lookupCount, hac]
      · simp [lookupCount, hna, ih]

/-- Folding bump over an occurrence list adds the occurrence count of each
name to the dictionary. -/
lemma lookupCount_countsOf (l : List String) : ∀ (m : List (String × Nat)) (n : String),
    lookupCount (l.foldl bump m) n =
      match lookupCount m n with
      | some k => some (k + List.count n l)
      | none => if n ∈ l then some (List.count n l) else none := by
  induction l with
  | nil =>
    intro m n
    cases h : lookupCount m n <;> simp [h]
  | cons c l ih =>
    intro m n
    rw [List.foldl_cons, ih (bump m c) n, lookupCount_bump]
    by_cases hnc : n = c
    · subst hnc
      simp only [if_pos rfl]
      cases h : lookupCount m n <;>
        simp [h, List.count_cons] <;> omega
    · simp only [if_neg hnc]
      cases h : lookupCount m n <;>
        simp [h, List.count_cons, hnc, Ne.symm hnc]

/-- Bumping keeps the key list, appending the name only when it is new. -/
lemma keys_bump (m : List (String × Nat)) (c : String) :
    (bump m c).map Prod.fst =
      if c ∈ m.map Prod.fst then m.map Prod.fst else m.map Prod.fst ++ [c] := by
  induction m with
  | nil => simp [bump]
  | cons p rest ih =>
    obtain ⟨a, k⟩ := p
    by_cases hac : a = c
    · subst hac
      simp [bump]
    · simp only [bump, if_neg hac, List.map_cons, List.mem_cons]
      rw [ih]
      by_cases hc : c ∈ rest.map Prod.fst <;>
        simp [hc, hac, Ne.symm hac]

/-- The dictionary keys stay duplicate-free under folding. -/
lemma keys_countsOf_nodup (l : List String) : ∀ m : List (String × Nat),
    ((m.map Prod.fst).Nodup) → (((l.foldl bump m)).map Prod.fst).Nodup := by
  induction l with
  | nil => intro m h; simpa using h
  | cons c l ih =>
    intro m h
    rw [List.foldl_cons]
    apply ih
    rw [keys_bump]
    by_cases hc : c ∈ m.map Prod.fst
    · simpa [hc] using h
    · simp [hc, List.nodup_append, h]

/-- The dictionary keys after folding are the old keys plus the scanned
names. -/
lemma mem_keys_countsOf (l : List String) : ∀ (m : List (String × Nat)) (n : String),
    n ∈ (l.foldl bump m).map Prod.fst ↔ n ∈ m.map Prod.fst ∨ n ∈ l := by
  induction l with
  | nil => intro m n; simp
  | cons c l ih =>
    intro m n
    rw [List.foldl_cons, ih, keys_bump]
    by_cases hc : c ∈ m.map Prod.fst
    · rw [if_pos hc]
      by_cases hnc : n = c
      · subst hnc; simp [hc]
      · simp [hnc]
    · rw [if_neg hc]
      simp only [List.mem_append, List.mem_singleton, List.mem_cons]
      tauto

/-- With duplicate-free keys, membership determines the lookup. -/
lemma lookupCount_of_mem_nodup : ∀ (m : List (String × Nat)) (n : String) (k : Nat),
    (m.map Prod.fst).Nodup → (n, k) ∈ m → lookupCount m n = some k := by
  intro m
  induction m with
  | nil => intro n k _ hm; simp at hm
  | cons p rest ih =>
    intro n k hnd hm
    obtain ⟨a, j⟩ := p
    simp only [List.map_cons, List.nodup_cons] at hnd
    rcases List.mem_cons.mp hm with heq | hmem
    · injection heq with h1 h2
      subst h1; subst h2
      simp [lookupCount]
    · have hna : n ≠ a := fun h => hnd.1 (h ▸ List.mem_map_of_mem Prod.fst hmem)
      simp only [lookupCount, if_neg hna]
      exact ih n k hnd.2 hmem

/-- The occurrence count of a name over the whole scan decomposes into the
per-record record-level and image-level counts. -/
lemma count_allOccurrences (cats : List Cat) (n : String) :
    List.count n (allOccurrences cats) =
      (cats.map (fun c =>
        List.count n (c.categories.getD []) +
          ((c.image_data.getD []).map
            (fun i => List.count n (i.categories.getD []))).sum)).sum := by
  induction cats with
  | nil => simp [allOccurrences]
  | cons c cs ih =>
    have hstep : allOccurrences (c :: cs) = catOccurrences c ++ allOccurrences cs := by
      simp [allOccurrences]
    rw [hstep, List.count_append, List.map_cons, List.sum_cons, ih]
    congr 1
    simp only [catOccurrences, List.count_append, List.count_flatten, List.map_map,
      Function.comp_def]

/- ── Claim C6 ─────────────────────────────────────────────────────────── -/

/-- Claim C6: the category index has one entry per distinct occurring
category name; the count of each entry is the total number of occurrences
of that name across record-level and per-media-item categories arrays;
and the entries are sorted in non-increasing order of count. -/
theorem loadCategories_index_spec (cats : List Cat) :
    ((loadCategories cats).map CategoryEntry.name).Nodup
    ∧ (∀ n, n ∈ (loadCategories cats).map CategoryEntry.name ↔ n ∈ allOccurrences cats)
    ∧ (∀ e ∈ loadCategories cats,
        e.count = (cats.map (fun c =>
          List.count e.name (c.categories.getD []) +
            ((c.image_data.getD []).map
              (fun i => List.count e.name (i.categories.getD []))).sum)).sum)
    ∧ (loadCategories cats).Pairwise (fun a b => b.count ≤ a.count) := by
  have hperm : (loadCategories cats).Perm
      ((countsOf (allOccurrences cats)).map (fun p => CategoryEntry.mk p.1 p.2)) := by
    rw [loadCategories]
    exact List.mergeSort_perm _ _
  have hkeysnd : ((countsOf (allOccurrences cats)).map Prod.fst).Nodup :=
    keys_countsOf_nodup (allOccurrences cats) [] (by simp)
  have hbasenames :
      ((countsOf (allOccurrences cats)).map (fun p => CategoryEntry.mk p.1 p.2)).map
          CategoryEntry.name
        = (countsOf (allOccurrences cats)).map Prod.fst := by
    rw [List.map_map]
    rfl
  refine ⟨?_, ?_, ?_, ?_⟩
  · exact ((hperm.map CategoryEntry.name).nodup_iff).mpr (hbasenames ▸ hkeysnd)
  · intro n
    rw [(hperm.map CategoryEntry.name).mem_iff, hbasenames]
    simpa [countsOf] using mem_keys_countsOf (allOccurrences cats) [] n
  · intro e he
    have heb := hperm.subset he
    obtain ⟨p, hp, hpe⟩ := List.mem_map.mp heb
    obtain ⟨pn, pk⟩ := p
    have hname : e.name = pn := by rw [← hpe]
    have hcount : e.count = pk := by rw [← hpe]
    have hlk : lookupCount (countsOf (allOccurrences cats)) pn = some pk :=
      lookupCount_of_mem_nodup _ pn pk hkeysnd hp
    have hlk2 := lookupCount_countsOf (allOccurrences cats) [] pn
    rw [show lookupCount [] pn = none from rfl] at hlk2
    rw [show ((allOccurrences cats).foldl bump []) = countsOf (allOccurrences cats) from rfl,
      hlk] at hlk2
    have hpnocc : pn ∈ allOccurrences cats := by
      by_contra hno
      rw [if_neg hno] at hlk2
      exact Option.noConfusion hlk2
    rw [if_pos hpnocc] at hlk2
    have hpk : pk = List.count pn (allOccurrences cats) := by
      injection hlk2
    rw [hcount, hname, hpk]
    exact count_allOccurrences cats pn
  · have htrans : ∀ a b c : CategoryEntry,
        (fun a b : CategoryEntry => decide (b.count ≤ a.count)) a b = true →
        (fun a b : CategoryEntry => decide (b.count ≤ a.count)) b c = true →
        (fun a b : CategoryEntry => decide (b.count ≤ a.count)) a c = true := by
      intro a b c hab hbc
      simp only [decide_eq_true_iff] at *
      omega
    have htotal : ∀ a b : CategoryEntry,
        ((fun a b : CategoryEntry => decide (b.count ≤ a.count)) a b ||
          (fun a b : CategoryEntry => decide (b.count ≤ a.count)) b a) = true := by
      intro a b
      simp only [Bool.or_eq_true, decide_eq_true_iff]
      omega
    have hs := @List.sorted_mergeSort CategoryEntry
      (fun a b : CategoryEntry => decide (b.count ≤ a.count)) htrans htotal
      ((countsOf (allOccurrences cats)).map (fun p => CategoryEntry.mk p.1 p.2))
    rw [loadCategories]
    exact hs.imp (fun h => by simpa using h)

end CatsGallery
